import Mathlib

/-!
Verification development for the `prettybad-traits` library (src/index.mjs and
src/index.js): a small immutable-state composition mechanism built from three
capabilities (Commutes, Propagates, TracksPropagation) plus a generic override
utility.

The JavaScript code is shallowly embedded via an explicit heap semantics:

* a JS object is an association list from property keys to property
  descriptors (a plain data value, or a getter function);
* the heap is a list of objects, a reference is an index into it;
* the prettybad-util `update(key)(fn)(obj)` operation allocates a fresh copy
  of the object with one slot replaced (structural sharing of all other
  slots), matching its documented contract;
* `define_property.mut` and the internal override utility mutate an object's
  slot in place;
* the closures that the library stores in object slots are defunctionalized
  as the inductive `Fn` (there are finitely many shapes of such closures in
  the source); user-supplied *updaters*, which are only ever passed as call
  arguments and never stored, stay ordinary Lean functions `Val → Val`.

Symbols are modelled as numbered keys: `Symbol('commute')`, the unique
private slot used by `Commutes`, is symbol 0; `Symbol('propagate')` is
symbol 1; `Symbol('tracking')` is symbol 2; the fresh
`Symbol('tracked_child[key]')` symbols minted by `TracksPropagation.track_key`
are numbered from a counter starting at 3.
-/

/-- A JS property key: a string key, or a (numbered) symbol key. -/
inductive Key where
  | str : String → Key
  | sym : Nat → Key
deriving DecidableEq, Repr

/-- `Commutes.symbol`, the private slot holding the commute implementation. -/
def commuteSym : Key := .sym 0

/-- `Propagates.symbol`, the private slot holding the propagate behavior. -/
def propagateSym : Key := .sym 1

/-- `TracksPropagation.tracking_symbol`, the slot holding the ledger. -/
def trackingSym : Key := .sym 2

/-- Defunctionalized closures: every function value the library ever stores in
an object slot (or installs as a getter).  `emitPair s` is the test-style
propagate override `result => [smoke, result.state]` used to observe that the
override indirection is honored (the side-effect marker is the string `s`). -/
inductive Fn where
  /-- `_commute`: `function (updater) { return update('state')(updater)(this) }`. -/
  | commuteImpl : Fn
  /-- `_proxy_commute`: `function (updater) { return this[Commutes.symbol](updater) }`. -/
  | proxyCommute : Fn
  /-- `propagating_commute`, i.e. `_commute_wrapper(commute)`: runs the captured
  `commute` bound to `this`, then feeds the result to `method_of(this)(Propagates.symbol)`. -/
  | propagatingCommute : Fn → Fn
  /-- `id`, the default propagate behavior installed by `Propagates`. -/
  | idFn : Fn
  /-- `propagate_up` from index.mjs (`create_propagate_up { symbol, context }`):
  `result => update(symbol)(_ => result)(context)`. -/
  | propagateUpMjs : Nat → Nat → Fn
  /-- `propagate_up` from index.js (`propagate_up_create { key, target }`):
  `result => update(key)(_ => result)(target)`. -/
  | propagateUpJs : String → Nat → Fn
  /-- `override_propagate_using_parent_context`, the getter installed at a
  tracked key by index.mjs (`create_propagate_proxy(...)(symbol)`). -/
  | proxyGetter : Nat → Fn
  /-- A user propagate override in the style of the test suite's `emit_smoke`:
  `result => [smoke, result.state]`. -/
  | emitPair : String → Fn
deriving DecidableEq, Repr

/-- A JS value: numbers, strings, object references, function values, arrays
(the tracking ledger), ledger entries `{ key, symbol }`, pairs
`[sideEffect, newState]`, plain data objects treated as immutable payloads
(node states such as `{ color }`), and `undefined`. -/
inductive Val where
  | num : Nat → Val
  | str : String → Val
  | ref : Nat → Val
  | fn : Fn → Val
  | arr : List Val → Val
  | entry : String → Nat → Val
  | pair : Val → Val → Val
  | plain : List (String × Val) → Val
  | undefined : Val
deriving Repr

/-- A property descriptor: a plain data slot, or a getter. -/
inductive Pd where
  | data : Val → Pd
  | getter : Fn → Pd
deriving Repr

/-- A JS object: an association list (in property insertion order). -/
abbrev Obj := List (Key × Pd)

/-- The heap: object number `r` lives at index `r`. -/
abbrev Heap := List Obj

/-- Own-property lookup (first matching entry). -/
def objGet (o : Obj) (k : Key) : Option Pd :=
  match o with
  | [] => none
  | e :: rest => if e.1 = k then some e.2 else objGet rest k

/-- `define_property`-style write: replace the slot in place if the key is
present, otherwise append it (JS property insertion order). -/
def objSet (o : Obj) (k : Key) (p : Pd) : Obj :=
  match o with
  | [] => [(k, p)]
  | e :: rest => if e.1 = k then (k, p) :: rest else e :: objSet rest k p

/-- Dereference a heap reference. -/
def hget (h : Heap) (r : Nat) : Option Obj :=
  h.get? r

/-- Overwrite the object stored at a reference (in-place object mutation). -/
def hset (h : Heap) (r : Nat) (o : Obj) : Heap :=
  h.set r o

/-- Allocate a fresh object, returning its reference. -/
def halloc (h : Heap) (o : Obj) : Nat × Heap :=
  (h.length, h ++ [o])

/-- Mutate the object behind a reference with an object-level function. -/
def hmodify (h : Heap) (r : Nat) (f : Obj → Obj) : Heap :=
  match hget h r with
  | some o => hset h r (f o)
  | none => h

/-- prettybad-util `update(key)(fn)(obj)`: allocate a structurally shared copy
of the object with the one data slot at `key` replaced by `fn` of its old
value.  Undefined (`none`) when the reference or the data slot is missing —
the library never relies on that case. -/
def heapUpdate (h : Heap) (r : Nat) (k : Key) (f : Val → Val) : Option (Nat × Heap) :=
  match hget h r with
  | none => none
  | some o =>
    match objGet o k with
    | some (.data v) => some (halloc h (objSet o k (.data (f v))))
    | _ => none

/-- `override_internal(symbol)(replacement)(target)` (identical in both source
files): if the slot exists, mutate it in place to the replacement; otherwise
log a diagnostic and leave the target untouched.  Either way the target
reference itself is what the caller keeps using. -/
def overrideSlot (h : Heap) (r : Nat) (k : Key) (v : Val) : Heap :=
  match hget h r with
  | some o => if (objGet o k).isSome then hset h r (objSet o k (.data v)) else h
  | none => h

/-- The public face of `override_internal`: returns the (unchanged) target
reference together with the possibly mutated heap. -/
def overrideInternal (k : Key) (repl : Val) (h : Heap) (r : Nat) : Nat × Heap :=
  (r, overrideSlot h r k repl)

/-- `Commutes.override`. -/
def CommutesOverride (repl : Val) (h : Heap) (r : Nat) : Nat × Heap :=
  overrideInternal commuteSym repl h r

/-- `Propagates.override`. -/
def PropagatesOverride (repl : Val) (h : Heap) (r : Nat) : Nat × Heap :=
  overrideInternal propagateSym repl h r

/-- Run a getter with receiver `self`.  The only getter in the system is the
mjs propagation proxy `override_propagate_using_parent_context`: it builds
`propagate_up { context: this, symbol }`, installs it with
`Propagates.override` into the hidden child `this[symbol]` (an in-place
override), and returns that same child.  When the slot holds a non-object,
`Propagates.override` falls through its `ᐅwhen(has(symbol))` guard and the
value is returned untouched. -/
def applyGetter (h : Heap) (g : Fn) (self : Nat) : Val × Heap :=
  match g with
  | .proxyGetter sym =>
    match hget h self with
    | some o =>
      match objGet o (.sym sym) with
      | some (.data v) =>
        match v with
        | .ref c => (v, overrideSlot h c propagateSym (.fn (.propagateUpMjs sym self)))
        | _ => (v, h)
      | _ => (.undefined, h)
    | none => (.undefined, h)
  | _ => (.undefined, h)

/-- Property read `target[key]`: a data slot reads purely; a getter runs with
the target as receiver (and, for the mjs proxy, mutates the heap). -/
def propRead (h : Heap) (r : Nat) (k : Key) : Val × Heap :=
  match hget h r with
  | some o =>
    match objGet o k with
    | some (.data v) => (v, h)
    | some (.getter g) => applyGetter h g r
    | none => (.undefined, h)
  | none => (.undefined, h)

/-- Apply a propagate-level function to the committed result.  `idFn` is the
default no-op; the two `propagate_up` variants rebuild a parent copy with one
slot replaced; `emitPair` is the observable test override
`result => [smoke, result.state]`. -/
def applyPropagate (h : Heap) (f : Fn) (arg : Val) : Option (Val × Heap) :=
  match f with
  | .idFn => some (arg, h)
  | .propagateUpMjs sym ctx =>
    (heapUpdate h ctx (.sym sym) (fun _ => arg)).map (fun q => (.ref q.1, q.2))
  | .propagateUpJs key ctx =>
    (heapUpdate h ctx (.str key) (fun _ => arg)).map (fun q => (.ref q.1, q.2))
  | .emitPair smoke =>
    match arg with
    | .ref c => some (.pair (.str smoke) (propRead h c (.str "state")).1, h)
    | _ => some (.pair (.str smoke) .undefined, h)
  | _ => none

/-- Apply a commit-level function with receiver `self` and updater `u`.
`commuteImpl` is `_commute` (`update('state')(updater)(this)`);
`propagatingCommute inner` is `_commute_wrapper(inner)`: it runs the captured
inner commit bound to `this`, then looks up `this[Propagates.symbol]` *at call
time* and applies it to the result. -/
def applyCommute (h : Heap) (f : Fn) (self : Nat) (u : Val → Val) : Option (Val × Heap) :=
  match f with
  | .commuteImpl =>
    (heapUpdate h self (.str "state") u).map (fun q => (.ref q.1, q.2))
  | .propagatingCommute inner =>
    match applyCommute h inner self u with
    | some (res, h₁) =>
      match propRead h₁ self propagateSym with
      | (.fn p, h₂) => applyPropagate h₂ p res
      | _ => none
    | none => none
  | _ => none

/-- `node.commute(updater)`: the public `commute` slot holds the fixed
delegator `_proxy_commute`, which forwards to the current private behavior at
`this[Commutes.symbol]`. -/
def callCommute (h : Heap) (r : Nat) (u : Val → Val) : Option (Val × Heap) :=
  match propRead h r (.str "commute") with
  | (.fn .proxyCommute, h₁) =>
    match propRead h₁ r commuteSym with
    | (.fn impl, h₂) => applyCommute h₂ impl r u
    | _ => none
  | _ => none

/-- `Commutes(target)` from index.mjs: guarded by
`and([has('state'), not(has(Commutes.symbol))])`, it installs the private
`_commute` behavior under `Commutes.symbol` and the public `commute`
delegator, mutating the target in place; otherwise the target is returned
unchanged (with a diagnostic). -/
def CommutesMjs (h : Heap) (r : Nat) : Nat × Heap :=
  match hget h r with
  | some o =>
    if (objGet o (.str "state")).isSome && !(objGet o commuteSym).isSome then
      (r, hset h r
        (objSet (objSet o commuteSym (.data (.fn .commuteImpl)))
          (.str "commute") (.data (.fn .proxyCommute))))
    else (r, h)
  | none => (r, h)

/-- Diagnostics `Commutes` (index.mjs) emits via `console.assert`: one per
failed assertion. -/
def CommutesMjsDiag (o : Obj) : List String :=
  (if (objGet o (.str "state")).isSome then []
   else ["The target object of Commutes must have a state key!"]) ++
  (if (objGet o commuteSym).isSome then ["Commutes: target is already Commutes!"]
   else [])

/-- `Commutes(target)` from index.js: same installation, but guarded only by
`has('state')` (no re-attachment guard). -/
def CommutesJs (h : Heap) (r : Nat) : Nat × Heap :=
  match hget h r with
  | some o =>
    if (objGet o (.str "state")).isSome then
      (r, hset h r
        (objSet (objSet o commuteSym (.data (.fn .commuteImpl)))
          (.str "commute") (.data (.fn .proxyCommute))))
    else (r, h)
  | none => (r, h)

/-- Diagnostics `Commutes` (index.js) emits. -/
def CommutesJsDiag (o : Obj) : List String :=
  if (objGet o (.str "state")).isSome then []
  else ["The target object of Commutes must have a state key!"]

/-- `Propagates(target)` (identical in both source files): guarded by
`has(Commutes.symbol)`, it installs the identity function as the default
propagate behavior and wraps the current private commit with
`_commute_wrapper` via `Commutes.override`; otherwise no-op. -/
def PropagatesAttach (h : Heap) (r : Nat) : Nat × Heap :=
  match hget h r with
  | some o =>
    if (objGet o commuteSym).isSome then
      let h₁ := hset h r (objSet o propagateSym (.data (.fn .idFn)))
      match objGet o commuteSym with
      | some (.data (.fn inner)) =>
        CommutesOverride (.fn (.propagatingCommute inner)) h₁ r
      | _ => (r, h₁)
    else (r, h)
  | none => (r, h)

/-- Attachment state for index.mjs tracking: the heap plus the counter minting
fresh `Symbol('tracked_child[key]')` symbols (3, 4, ...). -/
structure St where
  heap : Heap
  ctr : Nat
deriving Repr

/-- `push({ key, symbol })` applied to the ledger array slot. -/
def pushEntry (key : String) (sym : Nat) (v : Val) : Val :=
  match v with
  | .arr l => .arr (l ++ [.entry key sym])
  | _ => .undefined

/-- `TracksPropagation.track_key` from index.mjs.  In source order: the
assertion fires (diagnostic only), `tracked_child = get(key)(target)` is read
(running the getter if the key is already a proxy), a fresh symbol is minted,
and then — only when the key exists — the pipeline runs:
`add_to_tracking({key, symbol})` copies the parent with the ledger extended
(prettybad `update`), and `define_properties.mut` installs on that copy the
hidden non-writable back-reference `[symbol]: tracked_child` and the proxy
getter at `[key]`.  When the key is absent the target passes through
unchanged. -/
def trackKeyMjs (key : String) (st : St) (r : Nat) : Option (St × Nat) :=
  match hget st.heap r with
  | none => none
  | some o =>
    let q := propRead st.heap r (.str key)
    let sym := st.ctr
    if (objGet o (.str key)).isSome then
      match heapUpdate q.2 r trackingSym (pushEntry key sym) with
      | some (r₁, h₂) =>
        some (⟨hmodify h₂ r₁ (fun p =>
          objSet (objSet p (.sym sym) (.data q.1))
            (.str key) (.getter (.proxyGetter sym))), st.ctr + 1⟩, r₁)
      | none => none
    else some (⟨q.2, st.ctr + 1⟩, r)

/-- Diagnostic `track_key` (either variant) emits when the key is missing. -/
def trackKeyDiag (o : Obj) (key : String) : List String :=
  if (objGet o (.str key)).isSome then []
  else ["TracksPropagation: key (" ++ key ++ ") does not exist in target!"]

/-- The fold of `track_key` over the key list (mjs variant):
`flip(fold(TracksPropagation.track_key))(keys)`, keys processed left to
right with the parent as accumulator. -/
def trackFoldMjs (keys : List String) (st : St) (r : Nat) : Option (St × Nat) :=
  match keys with
  | [] => some (st, r)
  | k :: rest =>
    match trackKeyMjs k st r with
    | some (st₁, r₁) => trackFoldMjs rest st₁ r₁
    | none => none

/-- `TracksPropagation(keys)` from index.mjs: installs a fresh empty ledger
under the tracking symbol (in place, via `define_property.mut`), then folds
`track_key` over the keys. -/
def TracksPropagationMjs (keys : List String) (st : St) (r : Nat) : Option (St × Nat) :=
  trackFoldMjs keys ⟨hmodify st.heap r (fun o => objSet o trackingSym (.data (.arr []))), st.ctr⟩ r

/-- `TracksPropagation.track_key` from index.js: when the key exists, build
`propagate_up_create({ key, target })` capturing the *current* parent
reference, install it into the child with `Propagates.override` (an in-place
child mutation), and return `update(key)(override_propagate)(target)` — a
structurally shared parent copy whose `key` slot holds the value
`override_propagate` returned (the same child reference). -/
def trackKeyJs (key : String) (h : Heap) (r : Nat) : Option (Heap × Nat) :=
  match hget h r with
  | none => none
  | some o =>
    if (objGet o (.str key)).isSome then
      match objGet o (.str key) with
      | some (.data v) =>
        let h₁ := match v with
                  | .ref c => overrideSlot h c propagateSym (.fn (.propagateUpJs key r))
                  | _ => h
        (heapUpdate h₁ r (.str key) (fun _ => v)).map (fun q => (q.2, q.1))
      | _ => none
    else some (h, r)

/-- The fold of `track_key` over the key list (js variant). -/
def trackFoldJs (keys : List String) (h : Heap) (r : Nat) : Option (Heap × Nat) :=
  match keys with
  | [] => some (h, r)
  | k :: rest =>
    match trackKeyJs k h r with
    | some (h₁, r₁) => trackFoldJs rest h₁ r₁
    | none => none

/-- `TracksPropagation(keys)` from index.js: just the fold — no ledger is
installed in this variant (its `tracking_symbol` is declared but unused). -/
def TracksPropagationJs (keys : List String) (h : Heap) (r : Nat) : Option (Heap × Nat) :=
  trackFoldJs keys h r

/-- `parent.key.commute(updater)`: read the (possibly proxied) child at `key`,
then call its public commute.  Succeeds with the propagated parent reference
when the whole pipeline returns an object. -/
def commitThrough (h : Heap) (r : Nat) (key : String) (u : Val → Val) : Option (Nat × Heap) :=
  match propRead h r (.str key) with
  | (.ref c, h₁) =>
    match callCommute h₁ c u with
    | some (.ref p, h₂) => some (p, h₂)
    | _ => none
  | _ => none

/-- Read `parent.key.state` (running the proxy getter at `key` if present). -/
def stateValAt (h : Heap) (r : Nat) (key : String) : Option Val :=
  match propRead h r (.str key) with
  | (.ref c, h₁) => some (propRead h₁ c (.str "state")).1
  | _ => none

/-- Field lookup inside a plain data payload. -/
def plainGet (fields : List (String × Val)) (k : String) : Option Val :=
  match fields with
  | [] => none
  | e :: rest => if e.1 = k then some e.2 else plainGet rest k

/-- Field update inside a plain data payload (prettybad `update` on a plain
object, e.g. the leaf state `{ color }`). -/
def plainSet (fields : List (String × Val)) (k : String) (f : Val → Val) : List (String × Val) :=
  match fields with
  | [] => []
  | e :: rest => if e.1 = k then (e.1, f e.2) :: rest else e :: plainSet rest k f

/-- Read `parent.key.state.color`. -/
def colorAt (h : Heap) (r : Nat) (key : String) : Option String :=
  match stateValAt h r key with
  | some (.plain fs) =>
    match plainGet fs "color" with
    | some (.str c) => some c
    | _ => none
  | _ => none

/-- Read a numeric field of the parent itself, e.g. `parent.height`. -/
def numAt (h : Heap) (r : Nat) (key : String) : Option Nat :=
  match (propRead h r (.str key)).1 with
  | .num n => some n
  | _ => none

/-- The `turn` updater of the test suites' `Leaf`:
`update('color')(current => current === 'green' ? 'brown' : 'green')`. -/
def toggleColor (v : Val) : Val :=
  match v with
  | .str c => .str (if c = "green" then "brown" else "green")
  | _ => .str "green"

/-- The color-toggling updater applied to a leaf state `{ color }`. -/
def turnUpd (s : Val) : Val :=
  match s with
  | .plain fs => .plain (plainSet fs "color" toggleColor)
  | _ => s

/-- `Propagates(Commutes({ state: s }))`: allocate a node with the given state
and attach both capabilities (mjs `Commutes`; `Propagates` is identical in
both files). -/
def mkPropNode (h : Heap) (s : Val) : Nat × Heap :=
  let q := halloc h [(.str "state", .data s)]
  let q₁ := CommutesMjs q.2 q.1
  PropagatesAttach q₁.2 q₁.1

/-- Keys recorded in a ledger array, in order. -/
def entryKey (v : Val) : Option String :=
  match v with
  | .entry k _ => some k
  | _ => none

/-- The sequence of keys readable from the tracking ledger of a parent. -/
def ledgerKeys (h : Heap) (r : Nat) : Option (List String) :=
  match hget h r with
  | some o =>
    match objGet o trackingSym with
    | some (.data (.arr l)) => some (l.filterMap entryKey)
    | _ => none
  | none => none

/-! ### Basic lemmas about objects and the heap -/

theorem objGet_objSet_self (o : Obj) (k : Key) (p : Pd) :
    objGet (objSet o k p) k = some p := by
  induction o with
  | nil => simp [objGet, objSet]
  | cons e rest ih =>
    by_cases he : e.1 = k
    · simp [objGet, objSet, he]
    · simp [objGet, objSet, he, ih]

theorem objGet_objSet_ne (o : Obj) {k q : Key} (hne : q ≠ k) (p : Pd) :
    objGet (objSet o k p) q = objGet o q := by
  induction o with
  | nil => simp [objGet, objSet, Ne.symm hne]
  | cons e rest ih =>
    by_cases he : e.1 = k
    · simp [objGet, objSet, he, Ne.symm hne]
    · simp [objGet, objSet, he, ih]

theorem isSome_objGet_objSet (o : Obj) (k q : Key) (p : Pd) :
    (objGet o q).isSome → (objGet (objSet o k p) q).isSome := by
  intro hq
  by_cases he : q = k
  · subst he; simp [objGet_objSet_self]
  · rwa [objGet_objSet_ne o he]

theorem hget_some_lt {h : Heap} {r : Nat} {o : Obj} (hh : hget h r = some o) :
    r < h.length := by
  by_contra hge
  rw [hget, List.get?_eq_getElem?, List.getElem?_eq_none (Nat.le_of_not_lt hge)] at hh
  exact Option.noConfusion hh

theorem hget_append {h : Heap} {r : Nat} (hr : r < h.length) (t : Heap) :
    hget (h ++ t) r = hget h r := by
  simp only [hget, List.get?_eq_getElem?]
  rw [List.getElem?_append, if_pos hr]

theorem hget_append_len (h : Heap) (o : Obj) :
    hget (h ++ [o]) h.length = some o := by
  simp [hget]

theorem hget_hset_self {h : Heap} {r : Nat} (hr : r < h.length) (o : Obj) :
    hget (hset h r o) r = some o := by
  simp only [hget, hset, List.get?_eq_getElem?]
  exact List.getElem?_set_eq_of_lt o hr

theorem hget_hset_ne (h : Heap) {r q : Nat} (hne : q ≠ r) (o : Obj) :
    hget (hset h r o) q = hget h q := by
  simp only [hget, hset, List.get?_eq_getElem?]
  exact List.getElem?_set_ne (Ne.symm hne)

theorem length_hset (h : Heap) (r : Nat) (o : Obj) :
    (hset h r o).length = h.length := by
  simp [hset]

/-- Parent objects whose explicit tail consists of string-keyed properties
only: symbol lookups never hit them. -/
def strEntries (l : List (String × Pd)) : Obj :=
  l.map (fun e => (.str e.1, e.2))

theorem objGet_strEntries_sym (l : List (String × Pd)) (n : Nat) :
    objGet (strEntries l) (.sym n) = none := by
  induction l with
  | nil => rfl
  | cons e rest ih => simpa [strEntries, objGet] using ih

/-! ### Claims -/

/-- Claim C5: for every node with Commutes attached and every updater,
`commit(updater)` returns a new node whose `state` field equals the updater
applied to the old state and whose every other field equals the receiver's
corresponding field (structural sharing); the receiver node itself is left
unchanged by the commit (the new node lives at a fresh reference, and the
receiver's object is untouched in the resulting heap). -/
theorem claim_C5_commute_frame (h : Heap) (r : Nat) (o : Obj) (s : Val) (u : Val → Val)
    (h1 : hget h r = some o)
    (h2 : objGet o (.str "commute") = some (.data (.fn .proxyCommute)))
    (h3 : objGet o commuteSym = some (.data (.fn .commuteImpl)))
    (h4 : objGet o (.str "state") = some (.data s)) :
    callCommute h r u = some (.ref h.length, h ++ [objSet o (.str "state") (.data (u s))]) ∧
    objGet (objSet o (.str "state") (.data (u s))) (.str "state") = some (.data (u s)) ∧
    (∀ k, k ≠ Key.str "state" → objGet (objSet o (.str "state") (.data (u s))) k = objGet o k) ∧
    hget (h ++ [objSet o (.str "state") (.data (u s))]) r = some o ∧
    r ≠ h.length := by
  refine ⟨?_, objGet_objSet_self o _ _, fun k hk => objGet_objSet_ne o hk _, ?_, ?_⟩
  · simp only [callCommute, propRead, h1, h2, h3, applyCommute, heapUpdate, h4, halloc,
      Option.map_some']
  · rw [hget_append (hget_some_lt h1)]
    exact h1
  · exact Nat.ne_of_lt (hget_some_lt h1)

/-- A Commutes-only node used to witness C5: `Commutes({ state: 5 })`. -/
def c5Start : Nat × Heap :=
  let q := halloc [] [(.str "state", .data (.num 5))]
  CommutesMjs q.2 q.1

/-- The object `Commutes({ state: 5 })` ends up as. -/
def c5Node : Obj :=
  [(.str "state", .data (.num 5)),
   (commuteSym, .data (.fn .commuteImpl)),
   (.str "commute", .data (.fn .proxyCommute))]

/-- Witness for C5 at the node `Commutes({ state: 5 })` and the constant
updater `_ => 7`. -/
theorem claim_C5_witness :
    hget c5Start.2 0 = some c5Node ∧
    objGet c5Node (.str "commute") = some (.data (.fn .proxyCommute)) ∧
    objGet c5Node commuteSym = some (.data (.fn .commuteImpl)) ∧
    objGet c5Node (.str "state") = some (.data (.num 5)) ∧
    callCommute c5Start.2 0 (fun _ => .num 7) =
      some (.ref 1, c5Start.2 ++ [objSet c5Node (.str "state") (.data (.num 7))]) :=
  ⟨rfl, rfl, rfl, rfl,
    (claim_C5_commute_frame c5Start.2 0 c5Node (.num 5) (fun _ => .num 7)
      rfl rfl rfl rfl).1⟩

/-- Claim C7: attaching Commit Capability (either variant) to a node lacking a
`state` field emits the diagnostic and returns the input unchanged — the heap
is untouched, so no commute operation or private commit slot is added and no
exception escapes. -/
theorem claim_C7_missing_state (h hj : Heap) (r rj : Nat) (o oj : Obj)
    (h1 : hget h r = some o) (h2 : objGet o (.str "state") = none)
    (h3 : hget hj rj = some oj) (h4 : objGet oj (.str "state") = none) :
    CommutesMjs h r = (r, h) ∧
    CommutesJs hj rj = (rj, hj) ∧
    "The target object of Commutes must have a state key!" ∈ CommutesMjsDiag o ∧
    CommutesJsDiag oj = ["The target object of Commutes must have a state key!"] := by
  refine ⟨?_, ?_, ?_, ?_⟩
  · simp [CommutesMjs, h1, h2]
  · simp [CommutesJs, h3, h4]
  · simp [CommutesMjsDiag, h2]
  · simp [CommutesJsDiag, h4]

/-- A stateless object used to witness C7. -/
def c7Node : Obj := [(.str "v", .data (.num 5))]

/-- Witness for C7 at the node `{ v: 5 }` (no `state` key), in both variants. -/
theorem claim_C7_witness :
    hget [c7Node] 0 = some c7Node ∧
    objGet c7Node (.str "state") = none ∧
    CommutesMjs [c7Node] 0 = (0, [c7Node]) ∧
    CommutesJs [c7Node] 0 = (0, [c7Node]) :=
  ⟨rfl, rfl,
    (claim_C7_missing_state [c7Node] [c7Node] 0 0 c7Node c7Node rfl rfl rfl rfl).1,
    (claim_C7_missing_state [c7Node] [c7Node] 0 0 c7Node c7Node rfl rfl rfl rfl).2.1⟩

/-- Claim C4: a node with Commutes then Propagates attached but not tracked by
any parent carries the identity function as its propagate behavior, and its
`commit(updater)` returns exactly what the bare Commutes implementation
(`_commute`) returns: the wrapper's propagate step is a no-op pass-through
(`propagate(x) == x` for every `x`). -/
theorem claim_C4_untracked_commit (h : Heap) (r : Nat) (o : Obj) (u : Val → Val) (x : Val)
    (h1 : hget h r = some o)
    (h2 : objGet o (.str "commute") = some (.data (.fn .proxyCommute)))
    (h3 : objGet o commuteSym = some (.data (.fn (.propagatingCommute .commuteImpl))))
    (h4 : objGet o propagateSym = some (.data (.fn .idFn))) :
    callCommute h r u = applyCommute h .commuteImpl r u ∧
    applyPropagate h .idFn x = some (x, h) := by
  constructor
  · simp only [callCommute, propRead, h1, h2, h3]
    show applyCommute h (.propagatingCommute .commuteImpl) r u = applyCommute h .commuteImpl r u
    simp only [applyCommute, heapUpdate, h1]
    cases hs : objGet o (.str "state") with
    | none => rfl
    | some pd =>
      cases pd with
      | getter g => rfl
      | data v =>
        simp only [halloc, Option.map_some']
        rw [propRead, hget_append (hget_some_lt h1), h1]
        simp only [h4, applyPropagate]
  · rfl

/-- A propagating untracked node used to witness C4:
`Propagates(Commutes({ state: 5 }))`. -/
def c4Start : Nat × Heap :=
  mkPropNode [] (.num 5)

/-- The object `Propagates(Commutes({ state: 5 }))` ends up as. -/
def c4Node : Obj :=
  [(.str "state", .data (.num 5)),
   (commuteSym, .data (.fn (.propagatingCommute .commuteImpl))),
   (.str "commute", .data (.fn .proxyCommute)),
   (propagateSym, .data (.fn .idFn))]

/-- Witness for C4 at `Propagates(Commutes({ state: 5 }))`. -/
theorem claim_C4_witness :
    hget c4Start.2 0 = some c4Node ∧
    objGet c4Node propagateSym = some (.data (.fn .idFn)) ∧
    callCommute c4Start.2 0 (fun _ => .num 7) =
      applyCommute c4Start.2 .commuteImpl 0 (fun _ => .num 7) ∧
    applyPropagate c4Start.2 .idFn (.num 42) = some (.num 42, c4Start.2) :=
  ⟨rfl, rfl,
    (claim_C4_untracked_commit c4Start.2 0 c4Node (fun _ => .num 7) (.num 42)
      rfl rfl rfl rfl).1,
    (claim_C4_untracked_commit c4Start.2 0 c4Node (fun _ => .num 7) (.num 42)
      rfl rfl rfl rfl).2⟩

/-- Claim C3: for every node with Commutes and the Propagates commit wrapper
attached, and every propagate replacement `p` installed through
`Propagates.override`, a subsequent call to the public commit returns `p`
applied to the result of the private commit behavior.  Because the statement
holds for the behavior installed *after* the wrapper was created, it
establishes that the wrapper looks the propagate behavior up at call time
rather than capturing it when Propagates was attached. -/
theorem claim_C3_override_composition (h : Heap) (r : Nat) (o : Obj) (p : Fn) (u : Val → Val)
    (h1 : hget h r = some o)
    (h2 : objGet o (.str "commute") = some (.data (.fn .proxyCommute)))
    (h3 : objGet o commuteSym = some (.data (.fn (.propagatingCommute .commuteImpl))))
    (h4 : (objGet o propagateSym).isSome) :
    (PropagatesOverride (.fn p) h r).1 = r ∧
    callCommute (PropagatesOverride (.fn p) h r).2 r u =
      (applyCommute (PropagatesOverride (.fn p) h r).2 .commuteImpl r u).bind
        (fun q => applyPropagate q.2 p q.1) := by
  refine ⟨rfl, ?_⟩
  have hlt : r < h.length := hget_some_lt h1
  have hov : (PropagatesOverride (.fn p) h r).2 =
      hset h r (objSet o propagateSym (.data (.fn p))) := by
    simp [PropagatesOverride, overrideInternal, overrideSlot, h1, h4]
  rw [hov]
  have hg : hget (hset h r (objSet o propagateSym (.data (.fn p)))) r =
      some (objSet o propagateSym (.data (.fn p))) := hget_hset_self hlt _
  have hc : objGet (objSet o propagateSym (.data (.fn p))) (.str "commute") =
      some (.data (.fn .proxyCommute)) := by
    rw [objGet_objSet_ne o (by simp [propagateSym]) _]
    exact h2
  have hcs : objGet (objSet o propagateSym (.data (.fn p))) commuteSym =
      some (.data (.fn (.propagatingCommute .commuteImpl))) := by
    rw [objGet_objSet_ne o (by simp [commuteSym, propagateSym]) _]
    exact h3
  simp only [callCommute, propRead, hg, hc, hcs]
  show applyCommute _ (.propagatingCommute .commuteImpl) r u = _
  simp only [applyCommute, heapUpdate, hg]
  cases hs : objGet (objSet o propagateSym (.data (.fn p))) (.str "state") with
  | none => rfl
  | some pd =>
    cases pd with
    | getter g => rfl
    | data v =>
      simp only [halloc, Option.map_some', Option.bind_some]
      rw [propRead, hget_append (by rw [length_hset]; exact hlt), hg]
      simp only [objGet_objSet_self]
      rfl

/-- The propagating green leaf used to witness C3. -/
def c3Start : Nat × Heap :=
  mkPropNode [] (.plain [("color", .str "green")])

/-- The object `Propagates(Commutes({ state: { color: green } }))` ends up as. -/
def c3Node : Obj :=
  [(.str "state", .data (.plain [("color", .str "green")])),
   (commuteSym, .data (.fn (.propagatingCommute .commuteImpl))),
   (.str "commute", .data (.fn .proxyCommute)),
   (propagateSym, .data (.fn .idFn))]

/-- The witness node after `Propagates.override(emit_smoke)`. -/
def c3Over : Nat × Heap :=
  PropagatesOverride (.fn (.emitPair "smoke")) c3Start.2 c3Start.1

/-- Witness for C3: overriding propagate with `result => [smoke, result.state]`
makes the composite pair the return value of commit. -/
theorem claim_C3_witness :
    hget c3Start.2 0 = some c3Node ∧
    (objGet c3Node propagateSym).isSome = true ∧
    callCommute c3Over.2 0 turnUpd =
      (applyCommute c3Over.2 .commuteImpl 0 turnUpd).bind
        (fun q => applyPropagate q.2 (.emitPair "smoke") q.1) ∧
    (callCommute c3Over.2 0 turnUpd).map Prod.fst =
      some (.pair (.str "smoke") (.plain [("color", .str "brown")])) :=
  ⟨rfl, rfl,
    (claim_C3_override_composition c3Start.2 0 c3Node (.emitPair "smoke") turnUpd
      rfl rfl rfl rfl).2,
    rfl⟩

/-- Claim C10 (amended): the attachment operations `Commutes` (both variants)
and `Propagates`, and the override utility, hand back the very same reference
they were given — whether or not their precondition holds — and augment the
target purely in place: the heap neither grows nor changes at any other
reference, so no copy of the target node is created at attachment or override
time.  (`TracksPropagation` is the exception: see the counterexample — it
returns a fresh parent copy per successfully tracked key.) -/
theorem claim_C10_attachments_in_place (h : Heap) (r : Nat) (k : Key) (v : Val) :
    (CommutesMjs h r).1 = r ∧ (CommutesMjs h r).2.length = h.length ∧
    (∀ i, i ≠ r → hget (CommutesMjs h r).2 i = hget h i) ∧
    (CommutesJs h r).1 = r ∧ (CommutesJs h r).2.length = h.length ∧
    (∀ i, i ≠ r → hget (CommutesJs h r).2 i = hget h i) ∧
    (PropagatesAttach h r).1 = r ∧ (PropagatesAttach h r).2.length = h.length ∧
    (∀ i, i ≠ r → hget (PropagatesAttach h r).2 i = hget h i) ∧
    (overrideInternal k v h r).1 = r ∧ (overrideInternal k v h r).2.length = h.length ∧
    (∀ i, i ≠ r → hget (overrideInternal k v h r).2 i = hget h i) := by
  have hov : ∀ (h₀ : Heap) (k₀ : Key) (v₀ : Val),
      (overrideSlot h₀ r k₀ v₀).length = h₀.length ∧
      (∀ i, i ≠ r → hget (overrideSlot h₀ r k₀ v₀) i = hget h₀ i) := by
    intro h₀ k₀ v₀
    rw [overrideSlot]
    cases hget h₀ r with
    | none => exact ⟨rfl, fun i _ => rfl⟩
    | some o =>
      by_cases hk : (objGet o k₀).isSome
      · simp only [hk, if_true]
        exact ⟨length_hset h₀ r _, fun i hi => hget_hset_ne h₀ hi _⟩
      · simp only [hk, if_false]
        exact ⟨rfl, fun i _ => rfl⟩
  refine ⟨?_, ?_, ?_, ?_, ?_, ?_, ?_, ?_, ?_, rfl, (hov h k v).1, (hov h k v).2⟩
  · rw [CommutesMjs]
    split
    · split <;> rfl
    · rfl
  · rw [CommutesMjs]
    split
    · split
      · exact length_hset h r _
      · rfl
    · rfl
  · intro i hi
    rw [CommutesMjs]
    split
    · split
      · exact hget_hset_ne h hi _
      · rfl
    · rfl
  · rw [CommutesJs]
    split
    · split <;> rfl
    · rfl
  · rw [CommutesJs]
    split
    · split
      · exact length_hset h r _
      · rfl
    · rfl
  · intro i hi
    rw [CommutesJs]
    split
    · split
      · exact hget_hset_ne h hi _
      · rfl
    · rfl
  · rw [PropagatesAttach]
    split
    · split
      · dsimp only
        split <;> rfl
      · rfl
    · rfl
  · rw [PropagatesAttach]
    split
    · split
      · dsimp only
        split
        · exact ((hov _ _ _).1).trans (length_hset h r _)
        · exact length_hset h r _
      · rfl
    · rfl
  · intro i hi
    rw [PropagatesAttach]
    split
    · split
      · dsimp only
        split
        · exact ((hov _ _ _).2 i hi).trans (hget_hset_ne h hi _)
        · exact hget_hset_ne h hi _
      · rfl
    · rfl

/-- A parent `{ a: Propagates(Commutes({ state: 5 })) }` (parent at ref 1). -/
def c10Setup : Nat × Heap :=
  let q := mkPropNode [] (.num 5)
  halloc q.2 [(.str "a", .data (.ref q.1))]

/-- Counterexample to C10 as stated: `TracksPropagation` (in both variants)
does *not* return the reference it was given — tracking the single present
key `a` of the parent at reference 1 yields a parent at the fresh reference
2, because `track_key` rebuilds the parent with prettybad `update` (a
structurally shared copy), unlike the genuinely in-place `Commutes`,
`Propagates` and override operations. -/
theorem claim_C10_counterexample :
    c10Setup.1 = 1 ∧
    (TracksPropagationMjs ["a"] ⟨c10Setup.2, 3⟩ c10Setup.1).map (fun q => q.2) = some 2 ∧
    (TracksPropagationJs ["a"] c10Setup.2 c10Setup.1).map (fun q => q.2) = some 2 ∧
    (2 : Nat) ≠ 1 :=
  ⟨rfl, rfl, rfl, by decide⟩

/-- Claim C8: for every parent and every listed key the parent lacks,
`track_key` (both variants) skips that key: it emits the diagnostic and
leaves the parent untouched with respect to that key — no override, no ledger
entry, no copy (only the mjs symbol counter advances, since the fresh symbol
is minted before the guard) — while the fold continues so that the remaining
listed keys are still processed. -/
theorem claim_C8_missing_key_skipped (st : St) (r : Nat) (o : Obj) (k : String)
    (keys : List String) (hj : Heap) (rj : Nat) (oj : Obj)
    (h1 : hget st.heap r = some o) (h2 : objGet o (.str k) = none)
    (h3 : hget hj rj = some oj) (h4 : objGet oj (.str k) = none) :
    trackKeyMjs k st r = some (⟨st.heap, st.ctr + 1⟩, r) ∧
    trackFoldMjs (k :: keys) st r = trackFoldMjs keys ⟨st.heap, st.ctr + 1⟩ r ∧
    trackKeyJs k hj rj = some (hj, rj) ∧
    trackFoldJs (k :: keys) hj rj = trackFoldJs keys hj rj ∧
    trackKeyDiag o k =
      ["TracksPropagation: key (" ++ k ++ ") does not exist in target!"] := by
  have hmjs : trackKeyMjs k st r = some (⟨st.heap, st.ctr + 1⟩, r) := by
    rw [trackKeyMjs]
    simp only [h1, propRead, h2, Option.isSome_none, Bool.false_eq_true, if_false]
  have hjs : trackKeyJs k hj rj = some (hj, rj) := by
    rw [trackKeyJs]
    simp only [h3, h4, Option.isSome_none, Bool.false_eq_true, if_false]
  refine ⟨hmjs, ?_, hjs, ?_, ?_⟩
  · rw [trackFoldMjs, hmjs]
  · rw [trackFoldJs, hjs]
  · simp [trackKeyDiag, h2]

/-- A parent without the key `b` used to witness C8: tracking `[b, a]` skips
`b` but still tracks `a`. -/
def c8Setup : Nat × Heap :=
  let q := mkPropNode [] (.num 5)
  halloc q.2 [(.str "a", .data (.ref q.1))]

/-- Witness for C8: on `{ a: <propagating child> }` the absent key `b` is
skipped by both variants, and a subsequent present key `a` is still tracked
(the fold returns a tracked parent whose `a` still reaches the child state). -/
theorem claim_C8_witness :
    hget c8Setup.2 1 = some [(.str "a", .data (.ref 0))] ∧
    objGet [((.str "a" : Key), (.data (.ref 0) : Pd))] (.str "b") = none ∧
    trackKeyMjs "b" ⟨c8Setup.2, 3⟩ 1 = some (⟨c8Setup.2, 4⟩, 1) ∧
    trackKeyJs "b" c8Setup.2 1 = some (c8Setup.2, 1) ∧
    (TracksPropagationMjs ["b", "a"] ⟨c8Setup.2, 3⟩ 1).bind
      (fun q => stateValAt q.1.heap q.2 "a") = some (.num 5) :=
  ⟨rfl, rfl,
    (claim_C8_missing_key_skipped ⟨c8Setup.2, 3⟩ 1 [(.str "a", .data (.ref 0))] "b" []
      c8Setup.2 1 [(.str "a", .data (.ref 0))] rfl rfl rfl rfl).1,
    (claim_C8_missing_key_skipped ⟨c8Setup.2, 3⟩ 1 [(.str "a", .data (.ref 0))] "b" []
      c8Setup.2 1 [(.str "a", .data (.ref 0))] rfl rfl rfl rfl).2.2.1,
    rfl⟩

/-- Claim C9: in the index.mjs variant, reading a tracked parent's public key
runs the proxy getter: it returns exactly the reference stored under the
ledger entry's private back-reference symbol — not a copy (the heap does not
grow) — after mutating that hidden child's private propagate slot in place to
`propagate_up { symbol, context: <the parent receiver of the read> }`; every
other slot of the child and every other heap reference are untouched. -/
theorem claim_C9_proxy_returns_backref (h : Heap) (r : Nat) (o : Obj) (k : String)
    (s : Nat) (c : Nat) (co : Obj) (l : List Val)
    (h1 : hget h r = some o)
    (h2 : objGet o (.str k) = some (.getter (.proxyGetter s)))
    (h3 : objGet o (.sym s) = some (.data (.ref c)))
    (_h4 : objGet o trackingSym = some (.data (.arr l)))
    (_h5 : Val.entry k s ∈ l)
    (h6 : hget h c = some co)
    (h7 : (objGet co propagateSym).isSome) :
    propRead h r (.str k) =
      (.ref c, hset h c (objSet co propagateSym (.data (.fn (.propagateUpMjs s r))))) ∧
    (hset h c (objSet co propagateSym (.data (.fn (.propagateUpMjs s r))))).length
      = h.length ∧
    (∀ i, i ≠ c →
      hget (hset h c (objSet co propagateSym (.data (.fn (.propagateUpMjs s r))))) i
        = hget h i) ∧
    (∀ k2, k2 ≠ propagateSym →
      objGet (objSet co propagateSym (.data (.fn (.propagateUpMjs s r)))) k2
        = objGet co k2) := by
  refine ⟨?_, length_hset h c _, fun i hi => hget_hset_ne h hi _,
    fun k2 hk2 => objGet_objSet_ne co hk2 _⟩
  simp only [propRead, h1, h2, applyGetter, h3, overrideSlot, h6, h7, if_true]

/-- The tracked parent of the C2 tree scenario, reused to witness C9. -/
def c9Tracked : Option (St × Nat) :=
  let q := mkPropNode [] (.plain [("color", .str "green")])
  let p := halloc q.2 [(.str "height", .data (.num 100)), (.str "leaf", .data (.ref q.1))]
  TracksPropagationMjs ["leaf"] ⟨p.2, 3⟩ p.1

/-- The heap reached after tracking `leaf` in the witness scenario. -/
def c9Heap : Heap := (c9Tracked.getD ⟨⟨[], 0⟩, 0⟩).1.heap

/-- The tracked parent object in the witness scenario (at reference 2). -/
def c9Parent : Obj := (hget c9Heap 2).getD []

/-- The hidden child object in the witness scenario (at reference 0). -/
def c9Child : Obj := (hget c9Heap 0).getD []

/-- Witness for C9: on the concrete tracked tree, reading `parent.leaf`
returns the reference 0 stored under the ledger's back-reference symbol 3,
with the child's propagate slot switched to `propagate_up { symbol 3,
context: parent 2 }` in place. -/
theorem claim_C9_witness :
    hget c9Heap 2 = some c9Parent ∧
    objGet c9Parent (.str "leaf") = some (.getter (.proxyGetter 3)) ∧
    objGet c9Parent (.sym 3) = some (.data (.ref 0)) ∧
    objGet c9Parent trackingSym = some (.data (.arr [.entry "leaf" 3])) ∧
    Val.entry "leaf" 3 ∈ [Val.entry "leaf" 3] ∧
    hget c9Heap 0 = some c9Child ∧
    (objGet c9Child propagateSym).isSome = true ∧
    propRead c9Heap 2 (.str "leaf") =
      (.ref 0, hset c9Heap 0
        (objSet c9Child propagateSym (.data (.fn (.propagateUpMjs 3 2))))) :=
  ⟨rfl, rfl, rfl, rfl, List.mem_singleton.mpr rfl, rfl, rfl,
    (claim_C9_proxy_returns_backref c9Heap 2 c9Parent "leaf" 3 0 c9Child
      [.entry "leaf" 3] rfl rfl rfl rfl (List.mem_singleton.mpr rfl) rfl rfl).1⟩

/-- The green leaf state `{ color: green }`. -/
def greenState : Val := .plain [("color", .str "green")]

/-- The mjs test-suite tree: `{ height: 100, leaf: Propagates(Leaf({})) }`
with the leaf at reference 0 and the parent at reference 1. -/
def treeSetup : Nat × Heap :=
  let q := mkPropNode [] greenState
  halloc q.2 [(.str "height", .data (.num 100)), (.str "leaf", .data (.ref q.1))]

/-- `TracksPropagation(['leaf'])` applied to the tree parent. -/
def treeTracked : Option (St × Nat) :=
  TracksPropagationMjs ["leaf"] ⟨treeSetup.2, 3⟩ treeSetup.1

/-- `tree.leaf.commute(turn)`: one color-toggling commit through the tracked
parent. -/
def treeOnce : Option (Nat × Heap) :=
  treeTracked.bind (fun q => commitThrough q.1.heap q.2 "leaf" turnUpd)

/-- A second color-toggling commit through the parent the first one
returned. -/
def treeTwice : Option (Nat × Heap) :=
  treeOnce.bind (fun q => commitThrough q.2 q.1 "leaf" turnUpd)

/-- Claim C2: on the tracked parent `{ height: 100, leaf: Leaf(green) }`,
committing the color-toggling updater on the tracked leaf returns a new
parent with `height` still 100 and `leaf.state.color` brown; committing once
more on that returned parent's leaf yields `leaf.state.color` green again. -/
theorem claim_C2_tree_scenario :
    treeOnce.bind (fun q => numAt q.2 q.1 "height") = some 100 ∧
    treeOnce.bind (fun q => colorAt q.2 q.1 "leaf") = some "brown" ∧
    treeTwice.bind (fun q => colorAt q.2 q.1 "leaf") = some "green" :=
  ⟨rfl, rfl, rfl⟩

/-- The standard object shape of `Propagates(Commutes({ state: s }))`. -/
def propNodeObj (s : Val) : Obj :=
  [(.str "state", .data s),
   (commuteSym, .data (.fn (.propagatingCommute .commuteImpl))),
   (.str "commute", .data (.fn .proxyCommute)),
   (propagateSym, .data (.fn .idFn))]

/-- A parent holding two propagating sibling children (at heap references 0
and 1) under keys `a` and `b`, plus arbitrary further string-keyed
properties. -/
def twoLeafParent (a b : String) (rest : List (String × Pd)) : Obj :=
  (.str a, .data (.ref 0)) :: (.str b, .data (.ref 1)) :: strEntries rest

/-- Heap for the two-sibling scenario: child `a` at 0, child `b` at 1, parent
at 2, both children built by `Propagates(Commutes(...))`. -/
def twoLeafHeap (s₁ s₂ : Val) (a b : String) (rest : List (String × Pd)) : Heap :=
  let q1 := mkPropNode [] s₁
  let q2 := mkPropNode q1.2 s₂
  (halloc q2.2 (twoLeafParent a b rest)).2

theorem twoLeafHeap_eq (s₁ s₂ : Val) (a b : String) (rest : List (String × Pd)) :
    twoLeafHeap s₁ s₂ a b rest =
      [propNodeObj s₁, propNodeObj s₂, twoLeafParent a b rest] := rfl

/-- Track `[a, b]` on the two-sibling parent, commit `u₁` on the child at `a`,
then commit `u₂` on the child at `b` through the parent the first commit
returned. -/
def crossTalkMjs (s₁ s₂ : Val) (a b : String) (rest : List (String × Pd))
    (u₁ u₂ : Val → Val) : Option (Nat × Heap) :=
  ((TracksPropagationMjs [a, b] ⟨twoLeafHeap s₁ s₂ a b rest, 3⟩ 2).bind
    (fun q => commitThrough q.1.heap q.2 a u₁)).bind
    (fun q => commitThrough q.2 q.1 b u₂)

/-- Claim C1 (amended, index.mjs variant): for every pair of distinct sibling
keys, every pair of child states, every pair of updaters, and arbitrary
additional string-keyed parent fields, committing on the child at `a` and
then committing on the child at `b` through the resulting parent yields a
parent in which both children reflect their own updates — the commit on `a`
does not alter `b`'s committed value and vice versa. -/
theorem claim_C1_mjs_no_crosstalk (s₁ s₂ : Val) (a b : String)
    (rest : List (String × Pd)) (u₁ u₂ : Val → Val) (hab : a ≠ b) :
    (crossTalkMjs s₁ s₂ a b rest u₁ u₂).bind (fun q => stateValAt q.2 q.1 a)
      = some (u₁ s₁) ∧
    (crossTalkMjs s₁ s₂ a b rest u₁ u₂).bind (fun q => stateValAt q.2 q.1 b)
      = some (u₂ s₂) := by
  have hba : b ≠ a := Ne.symm hab
  constructor <;>
    simp [crossTalkMjs, TracksPropagationMjs, trackFoldMjs, trackKeyMjs,
      commitThrough, stateValAt, callCommute, applyCommute, applyPropagate,
      applyGetter, propRead, heapUpdate, overrideSlot, hmodify, hget, hset,
      halloc, pushEntry, twoLeafHeap_eq, twoLeafParent, propNodeObj,
      objGet, objSet, objGet_objSet_self, objGet_objSet_ne,
      objGet_strEntries_sym, commuteSym, propagateSym, trackingSym,
      hab, hba, Option.bind]

/-- The same two-sibling double-commit pipeline in the index.js variant:
green leaves at keys `a` and `b`, track both, toggle `a`, then toggle `b`
through the parent the first commit returned. -/
def crossTalkJsDemo : Option (Nat × Heap) :=
  ((TracksPropagationJs ["a", "b"] (twoLeafHeap greenState greenState "a" "b" []) 2).bind
    (fun q => commitThrough q.1 q.2 "a" turnUpd)).bind
    (fun q => commitThrough q.2 q.1 "b" turnUpd)

/-- Counterexample to C1 as stated: in the index.js variant (whose
`propagate_up` captures the parent snapshot that existed at tracking time),
committing the toggle on `a` and then committing on `b` through the resulting
parent yields a parent whose `a` child reads green again — the commit on `b`
rebuilt the tracking-time snapshot and discarded `a`'s committed update, so
the two siblings do exhibit cross-talk. -/
theorem claim_C1_counterexample :
    crossTalkJsDemo.bind (fun q => colorAt q.2 q.1 "a") = some "green" ∧
    crossTalkJsDemo.bind (fun q => colorAt q.2 q.1 "b") = some "brown" ∧
    turnUpd greenState = .plain [("color", .str "brown")] ∧
    ("green" : String) ≠ "brown" :=
  ⟨rfl, rfl, rfl, by decide⟩

/-- Witness for the amended C1 at keys `a`, `b`, green leaves and the toggle
updater. -/
theorem claim_C1_witness :
    ("a" : String) ≠ "b" ∧
    (crossTalkMjs greenState greenState "a" "b" [] turnUpd turnUpd).bind
      (fun q => stateValAt q.2 q.1 "a") = some (turnUpd greenState) ∧
    (crossTalkMjs greenState greenState "a" "b" [] turnUpd turnUpd).bind
      (fun q => stateValAt q.2 q.1 "b") = some (turnUpd greenState) :=
  ⟨by decide,
    (claim_C1_mjs_no_crosstalk greenState greenState "a" "b" [] turnUpd turnUpd
      (by decide)).1,
    (claim_C1_mjs_no_crosstalk greenState greenState "a" "b" [] turnUpd turnUpd
      (by decide)).2⟩

/-- Ledger invariant of the `track_key` fold (index.mjs): starting from a
parent whose ledger holds `l` and whose listed keys are all present as plain
data slots, folding `track_key` over distinct keys succeeds and the final
parent's ledger reads out as the keys of `l` followed by the folded keys, in
order. -/
theorem trackFoldMjs_ledger (keys : List String) (st : St) (r : Nat) (o : Obj)
    (l : List Val)
    (h1 : hget st.heap r = some o)
    (h2 : objGet o trackingSym = some (.data (.arr l)))
    (h3 : ∀ k, k ∈ keys → ∃ v, objGet o (.str k) = some (.data v))
    (h4 : keys.Nodup)
    (h5 : 3 ≤ st.ctr) :
    ∃ q, trackFoldMjs keys st r = some q ∧
      ledgerKeys q.1.heap q.2 = some (l.filterMap entryKey ++ keys) := by
  induction keys generalizing st r o l with
  | nil =>
    refine ⟨(st, r), rfl, ?_⟩
    simp [ledgerKeys, h1, h2]
  | cons k rest ih =>
    obtain ⟨v, hv⟩ := h3 k (List.mem_cons_self k rest)
    have hctr2 : (Key.sym st.ctr) ≠ trackingSym := by
      simp only [trackingSym, ne_eq, Key.sym.injEq]
      omega
    have hstep : trackKeyMjs k st r =
        some (⟨hset
            (st.heap ++ [objSet o trackingSym (.data (.arr (l ++ [.entry k st.ctr])))])
            st.heap.length
            (objSet
              (objSet (objSet o trackingSym (.data (.arr (l ++ [.entry k st.ctr]))))
                (.sym st.ctr) (.data v))
              (.str k) (.getter (.proxyGetter st.ctr))),
          st.ctr + 1⟩, st.heap.length) := by
      rw [trackKeyMjs]
      simp only [h1, propRead, hv, Option.isSome_some, if_true, heapUpdate, h2,
        pushEntry, halloc, hmodify, hget_append_len, hset]
    rw [trackFoldMjs, hstep]
    have h1' : hget
        (hset (st.heap ++ [objSet o trackingSym (.data (.arr (l ++ [.entry k st.ctr])))])
          st.heap.length
          (objSet
            (objSet (objSet o trackingSym (.data (.arr (l ++ [.entry k st.ctr]))))
              (.sym st.ctr) (.data v))
            (.str k) (.getter (.proxyGetter st.ctr))))
        st.heap.length = some
          (objSet
            (objSet (objSet o trackingSym (.data (.arr (l ++ [.entry k st.ctr]))))
              (.sym st.ctr) (.data v))
            (.str k) (.getter (.proxyGetter st.ctr))) :=
      hget_hset_self (by simp) _
    have h2' : objGet
        (objSet
          (objSet (objSet o trackingSym (.data (.arr (l ++ [.entry k st.ctr]))))
            (.sym st.ctr) (.data v))
          (.str k) (.getter (.proxyGetter st.ctr))) trackingSym =
        some (.data (.arr (l ++ [.entry k st.ctr]))) := by
      rw [objGet_objSet_ne _ (by simp [trackingSym]) _,
        objGet_objSet_ne _ (Ne.symm hctr2) _, objGet_objSet_self]
    have h3' : ∀ k2, k2 ∈ rest → ∃ v2, objGet
        (objSet
          (objSet (objSet o trackingSym (.data (.arr (l ++ [.entry k st.ctr]))))
            (.sym st.ctr) (.data v))
          (.str k) (.getter (.proxyGetter st.ctr))) (.str k2) = some (.data v2) := by
      intro k2 hk2
      obtain ⟨v2, hv2⟩ := h3 k2 (List.mem_cons_of_mem _ hk2)
      have hk2k : (Key.str k2) ≠ (Key.str k) := by
        simp only [ne_eq, Key.str.injEq]
        exact fun he => (List.nodup_cons.mp h4).1 (he ▸ hk2)
      refine ⟨v2, ?_⟩
      rw [objGet_objSet_ne _ hk2k _, objGet_objSet_ne _ (by simp) _,
        objGet_objSet_ne _ (by simp [trackingSym]) _]
      exact hv2
    obtain ⟨q', hq', hl'⟩ := ih ⟨_, st.ctr + 1⟩ st.heap.length _ _
      h1' h2' h3' (List.nodup_cons.mp h4).2 (by show 3 ≤ st.ctr + 1; omega)
    refine ⟨q', hq', ?_⟩
    rw [hl']
    simp [List.filterMap_append, entryKey]

/-- Claim C6 (amended, index.mjs variant): for every list of distinct keys
each present as a plain property on the parent, `trackPropagation(keys)`
attaches a tracking ledger on the returned parent whose sequence of keys
equals the key list in the order it was passed, never reordered. -/
theorem claim_C6_ledger_order (keys : List String) (st : St) (r : Nat) (o : Obj)
    (h1 : hget st.heap r = some o)
    (h3 : ∀ k, k ∈ keys → ∃ v, objGet o (.str k) = some (.data v))
    (h4 : keys.Nodup)
    (h5 : 3 ≤ st.ctr) :
    ∃ q, TracksPropagationMjs keys st r = some q ∧
      ledgerKeys q.1.heap q.2 = some keys := by
  rw [TracksPropagationMjs]
  have hmod : hmodify st.heap r (fun o => objSet o trackingSym (.data (.arr []))) =
      hset st.heap r (objSet o trackingSym (.data (.arr []))) := by
    rw [hmodify, h1]
  have h1' : hget (hset st.heap r (objSet o trackingSym (.data (.arr [])))) r =
      some (objSet o trackingSym (.data (.arr []))) :=
    hget_hset_self (hget_some_lt h1) _
  have h3' : ∀ k, k ∈ keys →
      ∃ v, objGet (objSet o trackingSym (.data (.arr []))) (.str k) = some (.data v) := by
    intro k hk
    obtain ⟨v, hv⟩ := h3 k hk
    refine ⟨v, ?_⟩
    rw [objGet_objSet_ne _ (by simp [trackingSym]) _]
    exact hv
  rw [hmod]
  obtain ⟨q, hq, hl⟩ := trackFoldMjs_ledger keys ⟨_, st.ctr⟩ r _ []
    h1' (objGet_objSet_self o _ _) h3' h4 h5
  refine ⟨q, hq, ?_⟩
  simpa using hl

/-- Counterexample to C6 as stated: the index.js variant attaches no tracking
ledger at all — after tracking the present key `a` of `{ a: <child> }`, the
returned parent has nothing under the tracking symbol, so no sequence of keys
can be read back from it. -/
theorem claim_C6_counterexample :
    (TracksPropagationJs ["a"] c10Setup.2 c10Setup.1).isSome = true ∧
    (TracksPropagationJs ["a"] c10Setup.2 c10Setup.1).bind
      (fun q => ledgerKeys q.1 q.2) = none :=
  ⟨rfl, rfl⟩

/-- Witness for the amended C6: tracking `['a', 'b']` on the two-leaf parent
produces a ledger reading `['a', 'b']`. -/
theorem claim_C6_witness :
    ∃ q, TracksPropagationMjs ["a", "b"]
        ⟨twoLeafHeap greenState greenState "a" "b" [], 3⟩ 2 = some q ∧
      ledgerKeys q.1.heap q.2 = some ["a", "b"] :=
  claim_C6_ledger_order ["a", "b"] ⟨twoLeafHeap greenState greenState "a" "b" [], 3⟩ 2
    (twoLeafParent "a" "b" []) rfl
    (by
      intro k hk
      simp only [List.mem_cons, List.mem_singleton] at hk
      rcases hk with rfl | rfl | hk
      · exact ⟨.ref 0, rfl⟩
      · exact ⟨.ref 1, rfl⟩
      · cases hk)
    (by decide) (by decide)
